import Mathlib

/-!
Verification of the tile-matching and compositing core of the rebuilder
photomosaic program (src/lib/image.py and src/lib/utils.py; the final
revision of the historical sequence, which rebuild.py and
rebuilderutils.py are earlier drafts of).

The program is Python 2, so the embedding models Python 2 semantics
exactly:

* integer `/` floors (Int.fdiv / natural division),
* `int()` applied to a float truncates toward zero,
* `round()` rounds to the nearest integer with halves away from zero,
* float arithmetic is modelled by exact rational arithmetic,
* `randint(lo, hi)` is modelled by an oracle function together with the
  hypothesis that every drawn value lies in `[lo, hi]`.

Pixel-level image operations (crop, paste, transpose, resize) are out of
scope per the spec; the composer is modelled by the exact per-cell trace
it produces: which source-LUT rank is selected, which destination index
is painted or skipped, and the skip list handed to the next pass.
-/

namespace Rebuilder

/-- Python 2 `int()` on a float (modelled as a rational): truncation toward zero. -/
def pyInt (q : ℚ) : ℤ := if q < 0 then ⌈q⌉ else ⌊q⌋

/-- Python 2 integer division `a / b`: floor division. -/
def pyFloorDiv (a b : ℤ) : ℤ := Int.fdiv a b

/-- Python 2 `round()` on a float: nearest integer, halves rounded away from
zero.  For a nonnegative argument this is `⌊q + 1/2⌋`. -/
def pyRound (q : ℚ) : ℤ := if q < 0 then -⌊-q + 1/2⌋ else ⌊q + 1/2⌋

/-- `utils.rgb_to_hsv` (src/lib/utils.py).  Inputs are 8-bit channel values;
the result is the (hue, saturation, value) triple, with hue in degrees
`[0, 360)`, saturation in `[0, 1]` and value in `[0, 255]`.  The Python code
returns `(0, 0, v)` early when `max_rgb == 0`; otherwise it selects the hue
branch by the first of `min == max` / `r == max` / `g == max` / else that
holds, scales by 60 and wraps negative hues by adding 360. -/
def rgb_to_hsv (r g b : ℕ) : ℚ × ℚ × ℚ :=
  let min_rgb : ℕ := min r (min g b)
  let max_rgb : ℕ := max r (max g b)
  let v : ℚ := (max_rgb : ℚ)
  let delta : ℕ := max_rgb - min_rgb
  if 0 < max_rgb then
    let s : ℚ := (delta : ℚ) / (max_rgb : ℚ)
    let h0 : ℚ :=
      if min_rgb = max_rgb then 0
      else if r = max_rgb then ((g : ℚ) - (b : ℚ)) / (delta : ℚ)
      else if g = max_rgb then 2 + ((b : ℚ) - (r : ℚ)) / (delta : ℚ)
      else 4 + ((r : ℚ) - (g : ℚ)) / (delta : ℚ)
    let h1 : ℚ := h0 * 60
    let h : ℚ := if h1 < 0 then h1 + 360 else h1
    (h, s, v)
  else
    (0, 0, v)

/-- Row count of the source-style partition (`SourceImage.calculate_block_vars`,
`user_block_size == 0` branch):
`rows = int(round(sqrt(256.0 / aspect)))` with `aspect = W / H`.
Computed exactly over the rationals:
`round(sqrt q) = ⌊(sqrt (4 q) + 1) / 2⌋ = (Nat.sqrt ⌊4 q⌋ + 1) / 2`
(halves round up, which agrees with Python's round-half-away-from-zero on
nonnegative input), and `⌊4 * 256 * H / W⌋ = 1024 * H / W` in natural
division. -/
def sourceRows (W H : ℕ) : ℕ := (Nat.sqrt (1024 * H / W) + 1) / 2

/-- Column count of the source-style partition:
`cols = int(round(aspect * rows))` where `rows` is still the UNROUNDED
`sqrt(256.0 / aspect)` (the code rounds `rows` only afterwards).  Since
`aspect * sqrt(256 / aspect) = sqrt(256 * aspect)` for positive aspect, this
is `round(sqrt (256 * W / H))`, computed exactly as in `sourceRows`. -/
def sourceCols (W H : ℕ) : ℕ := (Nat.sqrt (1024 * W / H) + 1) / 2

/-- The reading of the spec sentence "cols = round(aspect*rows); both rounded
to nearest integer" in which the already-rounded row count is used:
`round(aspect * sourceRows W H)`.  Compared against `sourceCols` (the code's
behaviour) below. -/
def sourceColsSpec (W H : ℕ) : ℕ :=
  (pyRound ((W : ℚ) / (H : ℚ) * (sourceRows W H : ℚ))).toNat

/-- Destination-style column count: `num_cols = int(width / user_block_size)`. -/
def destNumCols (width userBlockSize : ℕ) : ℕ := width / userBlockSize

/-- Destination-style row count: `num_rows = int(height / user_block_size)`. -/
def destNumRows (height userBlockSize : ℕ) : ℕ := height / userBlockSize

/-- Lower end of the jitter range: `lower = -user_block_size / 3` under
Python 2 floor division. -/
def jitterLower (S : ℕ) : ℤ := pyFloorDiv (-(S : ℤ)) 3

/-- Upper end of the jitter range: `upper = user_block_size / 3` under
Python 2 floor division. -/
def jitterUpper (S : ℕ) : ℤ := pyFloorDiv (S : ℤ) 3

/-- Admissible jitter oracle: every value the oracle can return lies in the
inclusive range of `randint(lower, upper)` used by `calculate_block_vars`. -/
def ValidDraw (S : ℕ) (draw : ℕ → ℤ) : Prop :=
  ∀ k, jitterLower S ≤ draw k ∧ draw k ≤ jitterUpper S

/-- Boundary offset list of a destination-style grid
(`SourceImage.calculate_block_vars`, `user_block_size > 0` branch): length
`n + 1`; if non-uniform, each entry is drawn by the jitter oracle and then
the first and last entries are overwritten with 0; otherwise all zero. -/
def offsetList (n : ℕ) (isNonUniform : Bool) (draw : ℕ → ℤ) : List ℤ :=
  if isNonUniform then
    ((((List.range (n + 1)).map draw).set 0 0).set n 0)
  else
    List.replicate (n + 1) 0

/-- Pixel extent of cell number `col` along one axis, as computed in
`SourceImage.build_average_list`: `end_x - start_x` where
`start_x = col * S + offsets[col]` and `end_x = (col + 1) * S + offsets[col + 1]`. -/
def cellWidth (S : ℕ) (offsets : List ℤ) (col : ℕ) : ℤ :=
  (S : ℤ) + offsets.getD (col + 1) 0 - offsets.getD col 0

/-- Per-cell record built by `SourceImage.build_average_list`: the seven
scaled channel statistics plus the color variance. -/
structure StatRec where
  l : ℕ
  h : ℕ
  s : ℕ
  v : ℕ
  r : ℕ
  g : ℕ
  b : ℕ
  variance : ℕ
deriving DecidableEq

instance : Inhabited StatRec := ⟨⟨0, 0, 0, 0, 0, 0, 0, 0⟩⟩

/-- One iteration of `SourceImage.build_average_list` for a single cell.
`colors` is the histogram returned by `block.getcolors`: a list of
`(count, r, g, b)` tuples.  `blockSize` is `current_block_size` (the pixel
area of the cell rectangle) and `maxValue` the scaling parameter.  RGB sums
are count-weighted; HSV values are obtained per distinct color via
`rgb_to_hsv` and summed count-weighted; all seven averages are scaled into
`[0, maxValue]` (luminance, value, R, G, B divide by 255, hue by 359,
saturation not at all) and truncated with `int()`. -/
def buildCellStats (colors : List (ℕ × ℕ × ℕ × ℕ)) (blockSize maxValue : ℕ) : StatRec :=
  let rsum : ℕ := (colors.map fun it => it.2.1 * it.1).sum
  let gsum : ℕ := (colors.map fun it => it.2.2.1 * it.1).sum
  let bsum : ℕ := (colors.map fun it => it.2.2.2 * it.1).sum
  let hsum : ℚ := (colors.map fun it => (rgb_to_hsv it.2.1 it.2.2.1 it.2.2.2).1 * it.1).sum
  let ssum : ℚ := (colors.map fun it => (rgb_to_hsv it.2.1 it.2.2.1 it.2.2.2).2.1 * it.1).sum
  let vsum : ℚ := (colors.map fun it => (rgb_to_hsv it.2.1 it.2.2.1 it.2.2.2).2.2 * it.1).sum
  let avg_r : ℚ := (rsum : ℚ) / (blockSize : ℚ)
  let avg_g : ℚ := (gsum : ℚ) / (blockSize : ℚ)
  let avg_b : ℚ := (bsum : ℚ) / (blockSize : ℚ)
  let avg_l : ℚ := avg_r * (299 / 1000) + avg_g * (587 / 1000) + avg_b * (114 / 1000)
  let avg_h : ℚ := hsum / (blockSize : ℚ)
  let avg_s : ℚ := ssum / (blockSize : ℚ)
  let avg_v : ℚ := vsum / (blockSize : ℚ)
  { l := (pyInt (avg_l / 255 * (maxValue : ℚ))).toNat
    h := (pyInt (avg_h / 359 * (maxValue : ℚ))).toNat
    s := (pyInt (avg_s * (maxValue : ℚ))).toNat
    v := (pyInt (avg_v / 255 * (maxValue : ℚ))).toNat
    r := (pyInt (avg_r / 255 * (maxValue : ℚ))).toNat
    g := (pyInt (avg_g / 255 * (maxValue : ℚ))).toNat
    b := (pyInt (avg_b / 255 * (maxValue : ℚ))).toNat
    variance := (pyInt ((colors.length : ℚ) / (blockSize : ℚ) * 10)).toNat }

/-- Entry of the fingerprint lookup table built by
`SourceImage.build_average_lut` (non-color branch): the tuple
`(original cell index, score, color variance)`. -/
structure LutEntry where
  idx : ℕ
  score : ℕ
  variance : ℕ
deriving DecidableEq

instance : Inhabited LutEntry := ⟨⟨0, 0, 0⟩⟩

/-- Comparison used by the LUT sort: by the score component. -/
def scoreLE (a b : LutEntry) : Prop := a.score ≤ b.score

instance : DecidableRel scoreLE := fun a b => Nat.decLe a.score b.score

instance : IsTotal LutEntry scoreLE := ⟨fun a b => Nat.le_total a.score b.score⟩

instance : IsTrans LutEntry scoreLE := ⟨fun _ _ _ hab hbc => Nat.le_trans hab hbc⟩

/-- Fingerprint score of one cell for an algorithm combination `atype`
(non-color branch of `build_average_lut`): the selected channels are summed
and the (float) sum is divided by `len(atype)` and truncated; on these
nonnegative integers that is natural division. -/
def atypeScore (d : StatRec) (atype : List Char) : ℕ :=
  ((if atype.contains 'l' then d.l else 0) +
   (if atype.contains 'h' then d.h else 0) +
   (if atype.contains 's' then d.s else 0) +
   (if atype.contains 'v' then d.v else 0) +
   (if atype.contains 'r' then d.r else 0) +
   (if atype.contains 'g' then d.g else 0) +
   (if atype.contains 'b' then d.b else 0)) / atype.length

/-- `SourceImage.build_average_lut` (non-color branch): build one entry per
cell carrying the original cell index, then sort ascending by score.
Python's `list.sort` is stable; `List.insertionSort` with a `≤` relation is
likewise stable, so tied scores keep their original cell-index order. -/
def build_average_lut (avgList : List StatRec) (atype : List Char) : List LutEntry :=
  List.insertionSort scoreLE
    (avgList.enum.map fun p => ⟨p.1, atypeScore p.2 atype, p.2.variance⟩)

/-- What `OutputImage.build_image` does with one destination cell: painted
normally, painted but recorded in the skip list (low variance), or skipped
entirely because its containing coarser cell was in the previous pass's
skip list. -/
inductive CellOutcome where
  | parentSkipped
  | lowVariance
  | painted
deriving DecidableEq

/-- Trace of one iteration of the per-cell loop of
`OutputImage.build_image`: the loop rank `i`, the selected source-LUT rank
`j`, the source cell index `src_list[j][0]`, the destination cell index
`dest_lut[i][0]`, the cell's variance entry, and the outcome. -/
structure CellTrace where
  rank : ℕ
  j : ℕ
  srcIdx : ℕ
  destIdx : ℕ
  variance : ℕ
  outcome : CellOutcome
deriving DecidableEq

/-- A cell's tile is pasted into the output raster exactly when the cell was
not skipped by parent propagation. -/
def CellTrace.pasted (t : CellTrace) : Bool := t.outcome != CellOutcome.parentSkipped

/-- Index of the containing coarser-pass cell (`build_image`, pass > 0):
`outeridx = (dest_idx / (cols * 2)) * (cols / 2) + (dest_idx % cols) / 2`,
all Python 2 integer divisions (here natural division). -/
def outerIndex (cols destIdx : ℕ) : ℕ :=
  destIdx / (cols * 2) * (cols / 2) + destIdx % cols / 2

/-- Source-LUT rank selection of `build_image`:
`j = int(current_scale * i) * scale_mult + int(dest_lut[i][1]) * dest_mult`
with `current_scale = 1.0 / current_num_blocks * src_num_blocks`,
`scale_mult = int(is_hdr)` and `dest_mult = int(not is_hdr)`. -/
def selectJ (isHdr : Bool) (srcCount destCount i score : ℕ) : ℕ :=
  (pyInt ((1 / (destCount : ℚ) * (srcCount : ℚ)) * (i : ℚ))).toNat *
      (if isHdr then 1 else 0) +
    score * (if isHdr then 0 else 1)

/-- One iteration of the per-cell loop of `OutputImage.build_image`.  The
code computes `j`, `src_idx`, `dest_idx` and `variance` first; then, from
pass 1 on, skips the cell entirely (after appending `dest_idx` to the skip
list) when the containing coarser cell is in the previous pass's skip list;
otherwise appends `dest_idx` to the skip list when `variance < threshold`
and in either case paints the cell. -/
def cellTrace (srcList destLut : List LutEntry) (isHdr : Bool) (cols threshold : ℕ)
    (lastSkip : Option (List ℕ)) (i : ℕ) : CellTrace :=
  let e := destLut.getD i default
  let j := selectJ isHdr srcList.length destLut.length i e.score
  let srcIdx := (srcList.getD j default).idx
  let outcome :=
    match lastSkip with
    | some lsl =>
        if lsl.contains (outerIndex cols e.idx) then CellOutcome.parentSkipped
        else if e.variance < threshold then CellOutcome.lowVariance
        else CellOutcome.painted
    | none =>
        if e.variance < threshold then CellOutcome.lowVariance
        else CellOutcome.painted
  { rank := i, j := j, srcIdx := srcIdx, destIdx := e.idx, variance := e.variance,
    outcome := outcome }

/-- All cell traces of one pass of `build_image`, in loop order
(`for i in range(current_num_blocks)`). -/
def passTraces (srcList destLut : List LutEntry) (isHdr : Bool) (cols threshold : ℕ)
    (lastSkip : Option (List ℕ)) : List CellTrace :=
  (List.range destLut.length).map (cellTrace srcList destLut isHdr cols threshold lastSkip)

/-- The skip list a pass hands to the next pass: destination indices of the
cells appended by either the parent-propagation branch or the low-variance
branch, in loop order. -/
def passSkipList (srcList destLut : List LutEntry) (isHdr : Bool) (cols threshold : ℕ)
    (lastSkip : Option (List ℕ)) : List ℕ :=
  ((passTraces srcList destLut isHdr cols threshold lastSkip).filter
      fun t => t.outcome != CellOutcome.painted).map CellTrace.destIdx

/-- The paste events of one pass: `(source cell index, destination cell
index)` for every cell whose tile reaches `self._out_file.paste`. -/
def passPastes (srcList destLut : List LutEntry) (isHdr : Bool) (cols threshold : ℕ)
    (lastSkip : Option (List ℕ)) : List (ℕ × ℕ) :=
  ((passTraces srcList destLut isHdr cols threshold lastSkip).filter
      CellTrace.pasted).map fun t => (t.srcIdx, t.destIdx)

/-- Concrete source average list used to refute claim C1: single-channel
luminance scores 1, 0, 0. -/
def c1SrcAvg : List StatRec :=
  [⟨1, 0, 0, 0, 0, 0, 0, 0⟩, ⟨0, 0, 0, 0, 0, 0, 0, 0⟩, ⟨0, 0, 0, 0, 0, 0, 0, 0⟩]

/-- Concrete destination LUT used to refute claim C1: one cell of luminance
score 1 (within bounds for a 3-entry source LUT and maxValue 2). -/
def c1DestLut : List LutEntry := build_average_lut [⟨1, 0, 0, 0, 0, 0, 0, 0⟩] ['l']

/-! Helper lemmas shared by several claims. -/

lemma pyInt_of_nonneg {q : ℚ} (h : 0 ≤ q) : pyInt q = ⌊q⌋ :=
  if_neg (not_lt.2 h)

lemma getDOfLt {α : Type} (l : List α) (d : α) {i : ℕ} (h : i < l.length) :
    l.getD i d = l[i] := by
  simp [List.getElem?_eq_getElem h]

lemma selectJ_false (s d i sc : ℕ) : selectJ false s d i sc = sc := by
  simp [selectJ]

lemma selectJ_true (s d i sc : ℕ) : selectJ true s d i sc = i * s / d := by
  rcases Nat.eq_zero_or_pos d with hd | hd
  · subst hd
    simp [selectJ, pyInt]
  · have h1 : (1 / (d : ℚ) * (s : ℚ)) * (i : ℚ) = ((i * s : ℕ) : ℚ) / (d : ℚ) := by
      push_cast
      ring
    have h2 : (0 : ℚ) ≤ ((i * s : ℕ) : ℚ) / (d : ℚ) := by positivity
    rw [selectJ, h1, pyInt_of_nonneg h2, Int.floor_toNat, Nat.floor_div_nat,
      Nat.floor_natCast]
    simp

lemma cellTrace_rank (srcList destLut : List LutEntry) (isHdr : Bool)
    (cols threshold : ℕ) (lastSkip : Option (List ℕ)) (i : ℕ) :
    (cellTrace srcList destLut isHdr cols threshold lastSkip i).rank = i := by
  simp [cellTrace]

lemma cellTrace_j_false (srcList destLut : List LutEntry)
    (cols threshold : ℕ) (lastSkip : Option (List ℕ)) (i : ℕ) :
    (cellTrace srcList destLut false cols threshold lastSkip i).j
      = (destLut.getD i default).score := by
  simp [cellTrace, selectJ_false]

lemma cellTrace_destIdx (srcList destLut : List LutEntry) (isHdr : Bool)
    (cols threshold : ℕ) (lastSkip : Option (List ℕ)) (i : ℕ) :
    (cellTrace srcList destLut isHdr cols threshold lastSkip i).destIdx
      = (destLut.getD i default).idx := by
  simp [cellTrace]

lemma cellTrace_mem_passTraces (srcList destLut : List LutEntry) (isHdr : Bool)
    (cols threshold : ℕ) (lastSkip : Option (List ℕ)) {i : ℕ}
    (hi : i < destLut.length) :
    cellTrace srcList destLut isHdr cols threshold lastSkip i
      ∈ passTraces srcList destLut isHdr cols threshold lastSkip :=
  List.mem_map.2 ⟨i, List.mem_range.2 hi, rfl⟩

lemma destIdx_mem_passSkipList (srcList destLut : List LutEntry) (isHdr : Bool)
    (cols threshold : ℕ) (lastSkip : Option (List ℕ)) {i : ℕ}
    (hi : i < destLut.length)
    (hout : (cellTrace srcList destLut isHdr cols threshold lastSkip i).outcome
        ≠ CellOutcome.painted) :
    (cellTrace srcList destLut isHdr cols threshold lastSkip i).destIdx
      ∈ passSkipList srcList destLut isHdr cols threshold lastSkip := by
  refine List.mem_map.2 ⟨cellTrace srcList destLut isHdr cols threshold lastSkip i, ?_, rfl⟩
  exact List.mem_filter.2
    ⟨cellTrace_mem_passTraces srcList destLut isHdr cols threshold lastSkip hi, by
      simpa using hout⟩

/-- C2: under the full-coverage (hdr) policy, every pass with `destCount > 0`
destination LUT entries and `srcCount > 0` source LUT entries processes each
destination rank `i` in `[0, destCount)` exactly once (the traces are, in
order, the traces of ranks `0, ..., destCount - 1`), maps it to
`j = floor(i * srcCount / destCount)`, and this `j` is below `srcCount` and
monotonically non-decreasing in `i`. -/
theorem c2_full_coverage_mapping
    (srcList destLut : List LutEntry) (cols threshold : ℕ)
    (lastSkip : Option (List ℕ))
    (hs : 0 < srcList.length) (hd : 0 < destLut.length) :
    ((passTraces srcList destLut true cols threshold lastSkip).map CellTrace.rank
        = List.range destLut.length) ∧
    (∀ i, i < destLut.length →
      (cellTrace srcList destLut true cols threshold lastSkip i).j
          = i * srcList.length / destLut.length ∧
      (cellTrace srcList destLut true cols threshold lastSkip i).j
          < srcList.length) ∧
    (∀ i₁ i₂, i₁ ≤ i₂ →
      (cellTrace srcList destLut true cols threshold lastSkip i₁).j
        ≤ (cellTrace srcList destLut true cols threshold lastSkip i₂).j) := by
  have hj : ∀ i, (cellTrace srcList destLut true cols threshold lastSkip i).j
      = i * srcList.length / destLut.length := by
    intro i
    simp [cellTrace, selectJ_true]
  refine ⟨?_, fun i hi => ⟨hj i, ?_⟩, fun i₁ i₂ h12 => ?_⟩
  · rw [passTraces, List.map_map]
    have hcomp : (CellTrace.rank ∘ cellTrace srcList destLut true cols threshold lastSkip)
        = fun i => i := by
      funext i
      exact cellTrace_rank srcList destLut true cols threshold lastSkip i
    rw [hcomp]
    exact List.map_id' _
  · rw [hj i, Nat.div_lt_iff_lt_mul hd]
    have hlt : i * srcList.length < destLut.length * srcList.length :=
      mul_lt_mul_of_pos_right hi hs
    rw [mul_comm destLut.length srcList.length] at hlt
    exact hlt
  · rw [hj i₁, hj i₂]
    exact Nat.div_le_div_right (Nat.mul_le_mul_right _ h12)

/-- C2 witness: the full-coverage mapping theorem instantiated at a concrete
two-entry source LUT and one-entry destination LUT. -/
theorem c2_full_coverage_mapping_witness :
    0 < ([⟨0, 0, 0⟩, ⟨1, 1, 0⟩] : List LutEntry).length ∧
    0 < ([⟨0, 0, 0⟩] : List LutEntry).length ∧
    (((passTraces [⟨0, 0, 0⟩, ⟨1, 1, 0⟩] [⟨0, 0, 0⟩] true 1 0 none).map CellTrace.rank
        = List.range ([⟨0, 0, 0⟩] : List LutEntry).length) ∧
      (∀ i, i < ([⟨0, 0, 0⟩] : List LutEntry).length →
        (cellTrace [⟨0, 0, 0⟩, ⟨1, 1, 0⟩] [⟨0, 0, 0⟩] true 1 0 none i).j
            = i * ([⟨0, 0, 0⟩, ⟨1, 1, 0⟩] : List LutEntry).length
                / ([⟨0, 0, 0⟩] : List LutEntry).length ∧
        (cellTrace [⟨0, 0, 0⟩, ⟨1, 1, 0⟩] [⟨0, 0, 0⟩] true 1 0 none i).j
            < ([⟨0, 0, 0⟩, ⟨1, 1, 0⟩] : List LutEntry).length) ∧
      (∀ i₁ i₂, i₁ ≤ i₂ →
        (cellTrace [⟨0, 0, 0⟩, ⟨1, 1, 0⟩] [⟨0, 0, 0⟩] true 1 0 none i₁).j
          ≤ (cellTrace [⟨0, 0, 0⟩, ⟨1, 1, 0⟩] [⟨0, 0, 0⟩] true 1 0 none i₂).j)) :=
  ⟨by decide, by decide,
    c2_full_coverage_mapping [⟨0, 0, 0⟩, ⟨1, 1, 0⟩] [⟨0, 0, 0⟩] 1 0 none
      (by decide) (by decide)⟩

/-- C5: in every pass after the first (previous skip list present), a cell
whose containing coarser-pass cell index `outerIndex` appears in the
previous pass's skip list has its destination index appended to the current
pass's skip list and is not composited; its outcome is `parentSkipped`
regardless of the variance threshold and of the source LUT, i.e. the
variance test and the source matching play no part in the decision. -/
theorem c5_parent_skip_propagation
    (destLut : List LutEntry) (isHdr : Bool) (cols : ℕ) (lsl : List ℕ)
    (i : ℕ) (hi : i < destLut.length)
    (hmem : lsl.contains (outerIndex cols (destLut.getD i default).idx) = true) :
    ∀ threshold : ℕ, ∀ srcList : List LutEntry,
      (cellTrace srcList destLut isHdr cols threshold (some lsl) i).outcome
          = CellOutcome.parentSkipped ∧
      (cellTrace srcList destLut isHdr cols threshold (some lsl) i).pasted = false ∧
      (cellTrace srcList destLut isHdr cols threshold (some lsl) i).destIdx
          ∈ passSkipList srcList destLut isHdr cols threshold (some lsl) := by
  intro threshold srcList
  have hmem' : outerIndex cols (destLut[i]?.getD default).idx ∈ lsl := by
    simpa using hmem
  have hout : (cellTrace srcList destLut isHdr cols threshold (some lsl) i).outcome
      = CellOutcome.parentSkipped := by
    simp [cellTrace, hmem']
  refine ⟨hout, ?_, ?_⟩
  · simp [CellTrace.pasted, hout]
  · exact destIdx_mem_passSkipList srcList destLut isHdr cols threshold (some lsl) hi
      (by simp [hout])

/-- C5 witness: a 1-cell destination grid whose (single) cell has outer
index 0, with 0 present in the previous skip list. -/
theorem c5_parent_skip_propagation_witness :
    0 < ([⟨0, 3, 9⟩] : List LutEntry).length ∧
    ([0] : List ℕ).contains
        (outerIndex 1 (([⟨0, 3, 9⟩] : List LutEntry).getD 0 default).idx) = true ∧
    ((cellTrace [⟨7, 0, 0⟩] [⟨0, 3, 9⟩] false 1 5 (some [0]) 0).outcome
        = CellOutcome.parentSkipped ∧
      (cellTrace [⟨7, 0, 0⟩] [⟨0, 3, 9⟩] false 1 5 (some [0]) 0).pasted = false ∧
      (cellTrace [⟨7, 0, 0⟩] [⟨0, 3, 9⟩] false 1 5 (some [0]) 0).destIdx
          ∈ passSkipList [⟨7, 0, 0⟩] [⟨0, 3, 9⟩] false 1 5 (some [0])) :=
  ⟨by decide, by decide,
    c5_parent_skip_propagation [⟨0, 3, 9⟩] false 1 [0] 0 (by decide) (by decide) 5 [⟨7, 0, 0⟩]⟩

/-- C6: in every pass, a cell that is not skipped by parent propagation and
whose variance is strictly below the pass threshold has its destination
index appended to the pass's skip list and is nevertheless still composited
normally in the current pass (its paste event is present). -/
theorem c6_low_variance_recorded_but_painted
    (srcList destLut : List LutEntry) (isHdr : Bool) (cols threshold : ℕ)
    (lastSkip : Option (List ℕ)) (i : ℕ) (hi : i < destLut.length)
    (hnoparent : ∀ lsl, lastSkip = some lsl →
        lsl.contains (outerIndex cols (destLut.getD i default).idx) = false)
    (hvar : (destLut.getD i default).variance < threshold) :
    (cellTrace srcList destLut isHdr cols threshold lastSkip i).outcome
        = CellOutcome.lowVariance ∧
    (cellTrace srcList destLut isHdr cols threshold lastSkip i).pasted = true ∧
    (cellTrace srcList destLut isHdr cols threshold lastSkip i).destIdx
        ∈ passSkipList srcList destLut isHdr cols threshold lastSkip ∧
    ((cellTrace srcList destLut isHdr cols threshold lastSkip i).srcIdx,
        (cellTrace srcList destLut isHdr cols threshold lastSkip i).destIdx)
      ∈ passPastes srcList destLut isHdr cols threshold lastSkip := by
  have hvar' : (destLut[i]?.getD default).variance < threshold := by
    simpa using hvar
  have hout : (cellTrace srcList destLut isHdr cols threshold lastSkip i).outcome
      = CellOutcome.lowVariance := by
    cases lastSkip with
    | none => simp [cellTrace, hvar']
    | some lsl =>
        have hnp : outerIndex cols (destLut[i]?.getD default).idx ∉ lsl := by
          simpa using hnoparent lsl rfl
        simp [cellTrace, hvar', hnp]
  refine ⟨hout, ?_, ?_, ?_⟩
  · simp [CellTrace.pasted, hout]
  · exact destIdx_mem_passSkipList srcList destLut isHdr cols threshold lastSkip hi
      (by simp [hout])
  · refine List.mem_map.2 ⟨cellTrace srcList destLut isHdr cols threshold lastSkip i, ?_, rfl⟩
    exact List.mem_filter.2
      ⟨cellTrace_mem_passTraces srcList destLut isHdr cols threshold lastSkip hi, by
        simp [CellTrace.pasted, hout]⟩

/-- C6 witness: a first-pass cell with variance 2 below threshold 5 is both
recorded in the skip list and pasted. -/
theorem c6_low_variance_recorded_but_painted_witness :
    0 < ([⟨4, 1, 2⟩] : List LutEntry).length ∧
    (([⟨4, 1, 2⟩] : List LutEntry).getD 0 default).variance < 5 ∧
    ((cellTrace [⟨6, 0, 0⟩, ⟨8, 1, 0⟩] [⟨4, 1, 2⟩] false 2 5 none 0).outcome
        = CellOutcome.lowVariance ∧
      (cellTrace [⟨6, 0, 0⟩, ⟨8, 1, 0⟩] [⟨4, 1, 2⟩] false 2 5 none 0).pasted = true ∧
      (cellTrace [⟨6, 0, 0⟩, ⟨8, 1, 0⟩] [⟨4, 1, 2⟩] false 2 5 none 0).destIdx
          ∈ passSkipList [⟨6, 0, 0⟩, ⟨8, 1, 0⟩] [⟨4, 1, 2⟩] false 2 5 none ∧
      ((cellTrace [⟨6, 0, 0⟩, ⟨8, 1, 0⟩] [⟨4, 1, 2⟩] false 2 5 none 0).srcIdx,
          (cellTrace [⟨6, 0, 0⟩, ⟨8, 1, 0⟩] [⟨4, 1, 2⟩] false 2 5 none 0).destIdx)
        ∈ passPastes [⟨6, 0, 0⟩, ⟨8, 1, 0⟩] [⟨4, 1, 2⟩] false 2 5 none) :=
  ⟨by decide, by decide,
    c6_low_variance_recorded_but_painted [⟨6, 0, 0⟩, ⟨8, 1, 0⟩] [⟨4, 1, 2⟩] false 2 5 none 0
      (by decide) (fun lsl h => by cases h) (by decide)⟩

/-- C10: with the tone-matched policy (hdr off), if the source LUT is
nonempty, maxValue equals the source LUT length minus one, and every
destination LUT entry's score is at most maxValue, then the selected source
rank `j` (the destination score) is a valid index into the source LUT, so
`src_list[j]` never goes out of bounds. -/
theorem c10_tone_matched_index_in_bounds
    (srcList destLut : List LutEntry) (cols threshold maxValue : ℕ)
    (lastSkip : Option (List ℕ))
    (hpos : 0 < srcList.length)
    (hmv : maxValue = srcList.length - 1)
    (hscore : ∀ e ∈ destLut, e.score ≤ maxValue)
    (i : ℕ) (hi : i < destLut.length) :
    (cellTrace srcList destLut false cols threshold lastSkip i).j < srcList.length := by
  rw [cellTrace_j_false]
  have hmem : destLut.getD i default ∈ destLut := by
    rw [getDOfLt destLut default hi]
    exact List.getElem_mem hi
  have hle := hscore _ hmem
  omega

/-- C10 witness: a 2-entry source LUT with maxValue 1 and a destination
entry of score 1 selects the in-bounds rank 1. -/
theorem c10_tone_matched_index_in_bounds_witness :
    0 < ([⟨9, 0, 0⟩, ⟨3, 1, 0⟩] : List LutEntry).length ∧
    (1 : ℕ) = ([⟨9, 0, 0⟩, ⟨3, 1, 0⟩] : List LutEntry).length - 1 ∧
    (∀ e ∈ ([⟨5, 1, 4⟩] : List LutEntry), e.score ≤ 1) ∧
    (cellTrace [⟨9, 0, 0⟩, ⟨3, 1, 0⟩] [⟨5, 1, 4⟩] false 3 0 none 0).j
        < ([⟨9, 0, 0⟩, ⟨3, 1, 0⟩] : List LutEntry).length :=
  ⟨by decide, by decide, by decide,
    c10_tone_matched_index_in_bounds [⟨9, 0, 0⟩, ⟨3, 1, 0⟩] [⟨5, 1, 4⟩] 3 0 1 none
      (by decide) (by decide) (by decide) 0 (by decide)⟩

lemma build_average_lut_sorted (avgList : List StatRec) (atype : List Char) :
    List.Sorted scoreLE (build_average_lut avgList atype) :=
  List.sorted_insertionSort scoreLE _

/-- A score-sorted LUT whose scores are pairwise distinct and all below the
LUT length has score `k` at rank `k`: the sorted scores form a strictly
increasing sequence of naturals bounded by the length, hence the identity. -/
lemma sorted_scores_identity (lut : List LutEntry)
    (hsorted : List.Sorted scoreLE lut)
    (hnodup : (lut.map LutEntry.score).Nodup)
    (hbound : ∀ e ∈ lut, e.score < lut.length)
    {k : ℕ} (hk : k < lut.length) :
    (lut.getD k default).score = k := by
  set scores := lut.map LutEntry.score with hscores
  have hlen : scores.length = lut.length := List.length_map _ _
  have hget : ∀ i, ∀ h : i < lut.length, scores.getD i 0 = lut[i].score := by
    intro i h
    rw [getDOfLt scores 0 (by omega)]
    simp [hscores]
  have hle : List.Pairwise (fun a b : ℕ => a ≤ b) scores :=
    List.Pairwise.map LutEntry.score (fun a b hab => hab) hsorted
  have hlt : ∀ i j, i < j → j < lut.length →
      scores.getD i 0 < scores.getD j 0 := by
    intro i j hij hj
    have h1 := List.pairwise_iff_getElem.mp hle i j (by omega) (by omega) hij
    have h2 := List.pairwise_iff_getElem.mp hnodup i j (by omega) (by omega) hij
    rw [getDOfLt scores 0 (by omega), getDOfLt scores 0 (by omega)]
    exact lt_of_le_of_ne h1 h2
  have chain : ∀ d k2, k2 + d < lut.length →
      scores.getD k2 0 + d ≤ scores.getD (k2 + d) 0 := by
    intro d
    induction d with
    | zero => intro k2 _; simp
    | succ d ih =>
        intro k2 h
        have h1 := ih k2 (by omega)
        have h2 := hlt (k2 + d) (k2 + d + 1) (by omega) (by omega)
        have h3 : k2 + d + 1 = k2 + (d + 1) := by omega
        rw [h3] at h2
        omega
  have hlow : k ≤ scores.getD k 0 := by
    have h0 := chain k 0 (by omega)
    rw [Nat.zero_add] at h0
    omega
  have hboundlast : scores.getD (lut.length - 1) 0 < lut.length := by
    rw [hget _ (by omega)]
    exact hbound _ (List.getElem_mem _)
  have hup : scores.getD k 0 ≤ k := by
    have := chain (lut.length - 1 - k) k (by omega)
    have heq : k + (lut.length - 1 - k) = lut.length - 1 := by omega
    rw [heq] at this
    omega
  have hval : (lut.getD k default).score = scores.getD k 0 := by
    rw [getDOfLt lut default hk, hget k hk]
  omega

/-- C1 counterexample: a uniform, non-detail, single-channel ('l'),
tone-matched (hdr off) combination in which the destination cell's score 1
does occur among the source LUT scores, yet the source cell actually
composited (the LUT entry at rank j = 1 of the score-sorted source LUT
[(1,0), (2,0), (0,1)]) has score 0, not 1. -/
theorem c1_tone_matched_roundtrip_counterexample :
    (∃ e ∈ build_average_lut c1SrcAvg ['l'],
        e.score = (c1DestLut.getD 0 default).score) ∧
    ((build_average_lut c1SrcAvg ['l']).getD
          (cellTrace (build_average_lut c1SrcAvg ['l']) c1DestLut false 1 0 none 0).j
          default).score
      ≠ (c1DestLut.getD 0 default).score := by
  decide

/-- C1 (amended): under the tone-matched policy the destination score is
used as a rank index into the score-sorted source LUT, so the composited
source cell's score equals the destination score provided the source LUT
scores are pairwise distinct and each below the LUT length (for example
when maxValue = srcCount - 1 and all srcCount scores are distinct); the
mere existence of a source entry with a matching score is not enough. -/
theorem c1_tone_matched_roundtrip_amended
    (srcAvg : List StatRec) (atype : List Char) (destLut : List LutEntry)
    (cols threshold : ℕ) (lastSkip : Option (List ℕ))
    (hnodup : ((build_average_lut srcAvg atype).map LutEntry.score).Nodup)
    (hbound : ∀ e ∈ build_average_lut srcAvg atype,
        e.score < (build_average_lut srcAvg atype).length)
    (i : ℕ) (_hi : i < destLut.length)
    (hmatch : ∃ e ∈ build_average_lut srcAvg atype,
        e.score = (destLut.getD i default).score) :
    ((build_average_lut srcAvg atype).getD
          (cellTrace (build_average_lut srcAvg atype) destLut false cols threshold lastSkip i).j
          default).score
      = (destLut.getD i default).score := by
  obtain ⟨e, hem, hes⟩ := hmatch
  have hjlt : (destLut.getD i default).score < (build_average_lut srcAvg atype).length := by
    rw [← hes]
    exact hbound e hem
  rw [cellTrace_j_false]
  exact sorted_scores_identity _ (build_average_lut_sorted srcAvg atype) hnodup hbound hjlt

/-- C1 witness: with three distinct, in-range source scores 0, 1, 2 (so the
sorted LUT is the identity on ranks) and a destination cell of score 2, the
amended round-trip holds. -/
theorem c1_tone_matched_roundtrip_amended_witness :
    ((build_average_lut
        [⟨0, 0, 0, 0, 0, 0, 0, 0⟩, ⟨1, 0, 0, 0, 0, 0, 0, 0⟩, ⟨2, 0, 0, 0, 0, 0, 0, 0⟩]
        ['l']).map LutEntry.score).Nodup ∧
    (∀ e ∈ build_average_lut
        [⟨0, 0, 0, 0, 0, 0, 0, 0⟩, ⟨1, 0, 0, 0, 0, 0, 0, 0⟩, ⟨2, 0, 0, 0, 0, 0, 0, 0⟩]
        ['l'],
      e.score < (build_average_lut
        [⟨0, 0, 0, 0, 0, 0, 0, 0⟩, ⟨1, 0, 0, 0, 0, 0, 0, 0⟩, ⟨2, 0, 0, 0, 0, 0, 0, 0⟩]
        ['l']).length) ∧
    ((build_average_lut
        [⟨0, 0, 0, 0, 0, 0, 0, 0⟩, ⟨1, 0, 0, 0, 0, 0, 0, 0⟩, ⟨2, 0, 0, 0, 0, 0, 0, 0⟩]
        ['l']).getD
          (cellTrace
            (build_average_lut
              [⟨0, 0, 0, 0, 0, 0, 0, 0⟩, ⟨1, 0, 0, 0, 0, 0, 0, 0⟩, ⟨2, 0, 0, 0, 0, 0, 0, 0⟩]
              ['l'])
            [⟨0, 2, 3⟩] false 1 0 none 0).j
          default).score
      = (([⟨0, 2, 3⟩] : List LutEntry).getD 0 default).score :=
  ⟨by decide, by decide,
    c1_tone_matched_roundtrip_amended
      [⟨0, 0, 0, 0, 0, 0, 0, 0⟩, ⟨1, 0, 0, 0, 0, 0, 0, 0⟩, ⟨2, 0, 0, 0, 0, 0, 0, 0⟩]
      ['l'] [⟨0, 2, 3⟩] 1 0 none (by decide) (by decide) 0 (by decide) (by decide)⟩

lemma natSqrtEq {n s : ℕ} (h1 : s * s ≤ n) (h2 : n < (s + 1) * (s + 1)) :
    Nat.sqrt n = s := by
  have hle : s ≤ Nat.sqrt n := Nat.le_sqrt.mpr h1
  have hlt : Nat.sqrt n < s + 1 := Nat.sqrt_lt.mpr h2
  omega

/-- For `n = (Nat.sqrt m + 1) / 2`, i.e. the exact value of
`round(sqrt (m / 4))` with halves rounded up: `m` lies in the interval
`[(2n-1)^2, (2n+1)^2)`, which says precisely that `n` is the nearest
integer to `sqrt m / 2`. -/
lemma roundSqrtHalf_characterization (m n : ℕ) (hn : n = (Nat.sqrt m + 1) / 2) :
    m < (2 * n + 1) * (2 * n + 1) ∧ (n = 0 ∨ (2 * n - 1) * (2 * n - 1) ≤ m) := by
  have hs1 : Nat.sqrt m * Nat.sqrt m ≤ m := Nat.sqrt_le m
  have hs2 : m < (Nat.sqrt m + 1) * (Nat.sqrt m + 1) := Nat.lt_succ_sqrt m
  constructor
  · have hle : Nat.sqrt m + 1 ≤ 2 * n + 1 := by omega
    exact lt_of_lt_of_le hs2 (Nat.mul_le_mul hle hle)
  · rcases Nat.eq_zero_or_pos n with h0 | hpos
    · exact Or.inl h0
    · refine Or.inr ?_
      have hle : 2 * n - 1 ≤ Nat.sqrt m := by omega
      exact le_trans (Nat.mul_le_mul hle hle) hs1

/-- C3: evaluation of the source-style partition at the failing input: a
94 x 100 source image is partitioned into 17 rows x 16 columns = 272 cells,
exceeding the 256-cell maximum promised by the claim and by the code's own
docstring ("May be less than 256 tiles but not more"). -/
theorem c3_source_partition_exceeds_256 :
    sourceRows 94 100 = 17 ∧ sourceCols 94 100 = 16 ∧
    sourceRows 94 100 * sourceCols 94 100 = 272 ∧
    ¬(sourceRows 94 100 * sourceCols 94 100 ≤ 256) := by
  have h1 : Nat.sqrt (1024 * 100 / 94) = 33 := natSqrtEq (by norm_num) (by norm_num)
  have h2 : Nat.sqrt (1024 * 94 / 100) = 31 := natSqrtEq (by norm_num) (by norm_num)
  have hr : sourceRows 94 100 = 17 := by rw [sourceRows, h1]
  have hc : sourceCols 94 100 = 16 := by rw [sourceCols, h2]
  refine ⟨hr, hc, ?_, ?_⟩ <;> rw [hr, hc]
  norm_num

/-- C4 counterexample: for a 1024 x 512 source image (aspect 2) the code
yields rows = 11 but cols = 23, because `cols = round(aspect * rows)` is
evaluated with the UNROUNDED `rows = sqrt(128) = 11.31...`; the claim's
formula `round(aspect * round(rows)) = round(2 * 11) = 22` disagrees. -/
theorem c4_source_cols_formula_counterexample :
    sourceRows 1024 512 = 11 ∧ sourceColsSpec 1024 512 = 22 ∧
    sourceCols 1024 512 = 23 ∧
    sourceCols 1024 512 ≠ sourceColsSpec 1024 512 := by
  have h1 : Nat.sqrt (1024 * 512 / 1024) = 22 := natSqrtEq (by norm_num) (by norm_num)
  have h2 : Nat.sqrt (1024 * 1024 / 512) = 45 := natSqrtEq (by norm_num) (by norm_num)
  have hr : sourceRows 1024 512 = 11 := by rw [sourceRows, h1]
  have hc : sourceCols 1024 512 = 23 := by rw [sourceCols, h2]
  have hspec : sourceColsSpec 1024 512 = 22 := by
    rw [sourceColsSpec, hr, pyRound]
    norm_num
    rfl
  exact ⟨hr, hspec, hc, by rw [hc, hspec]; omega⟩

/-- C4 (amended): the code sets `rows` to the nearest integer to
`sqrt(256 / aspect)` but computes `cols` from the unrounded square root:
`cols` is the nearest integer to `aspect * sqrt(256 / aspect)
= sqrt(256 * aspect)`.  Stated exactly: with `m = 1024 * H / W`
(resp. `1024 * W / H`), the computed count `n` satisfies
`(2n - 1)^2 ≤ m < (2n + 1)^2`.  For aspect 2 (1024 x 512) this gives
rows = 11 and cols = 23 (not 22). -/
theorem c4_source_grid_formula_amended :
    (∀ W H : ℕ, 0 < W → 0 < H →
      (1024 * H / W < (2 * sourceRows W H + 1) * (2 * sourceRows W H + 1) ∧
        (sourceRows W H = 0 ∨
          (2 * sourceRows W H - 1) * (2 * sourceRows W H - 1) ≤ 1024 * H / W)) ∧
      (1024 * W / H < (2 * sourceCols W H + 1) * (2 * sourceCols W H + 1) ∧
        (sourceCols W H = 0 ∨
          (2 * sourceCols W H - 1) * (2 * sourceCols W H - 1) ≤ 1024 * W / H))) ∧
    sourceRows 1024 512 = 11 ∧ sourceCols 1024 512 = 23 := by
  refine ⟨fun W H _ _ =>
    ⟨roundSqrtHalf_characterization _ _ rfl, roundSqrtHalf_characterization _ _ rfl⟩, ?_, ?_⟩
  · have h1 : Nat.sqrt (1024 * 512 / 1024) = 22 := natSqrtEq (by norm_num) (by norm_num)
    rw [sourceRows, h1]
  · have h2 : Nat.sqrt (1024 * 1024 / 512) = 45 := natSqrtEq (by norm_num) (by norm_num)
    rw [sourceCols, h2]

/-- C4 witness: the amended characterization applied to the 94 x 100 image. -/
theorem c4_source_grid_formula_amended_witness :
    0 < 94 ∧ 0 < 100 ∧
    ((1024 * 100 / 94 < (2 * sourceRows 94 100 + 1) * (2 * sourceRows 94 100 + 1) ∧
        (sourceRows 94 100 = 0 ∨
          (2 * sourceRows 94 100 - 1) * (2 * sourceRows 94 100 - 1) ≤ 1024 * 100 / 94)) ∧
      (1024 * 94 / 100 < (2 * sourceCols 94 100 + 1) * (2 * sourceCols 94 100 + 1) ∧
        (sourceCols 94 100 = 0 ∨
          (2 * sourceCols 94 100 - 1) * (2 * sourceCols 94 100 - 1) ≤ 1024 * 94 / 100))) :=
  ⟨by decide, by decide, c4_source_grid_formula_amended.1 94 100 (by decide) (by decide)⟩

lemma jitterLower_eq (S : ℕ) : jitterLower S = -(((S + 2) / 3 : ℕ) : ℤ) := by
  rw [jitterLower, pyFloorDiv, Int.fdiv_eq_ediv _ (by norm_num)]
  omega

lemma jitterUpper_eq (S : ℕ) : jitterUpper S = ((S / 3 : ℕ) : ℤ) := by
  rw [jitterUpper, pyFloorDiv, Int.fdiv_eq_ediv _ (by norm_num)]
  omega

lemma offsetList_getD (n : ℕ) (draw : ℕ → ℤ) (k : ℕ) (hk : k ≤ n) :
    (offsetList n true draw).getD k 0 = if k = 0 ∨ k = n then 0 else draw k := by
  have hlen : ((((List.range (n + 1)).map draw).set 0 0).set n 0).length = n + 1 := by
    simp
  rw [offsetList, if_pos rfl, getDOfLt _ 0 (by omega)]
  rcases eq_or_ne k n with hkn | hkn
  · subst hkn
    simp
  · rcases eq_or_ne k 0 with hk0 | hk0
    · subst hk0
      rw [if_pos (Or.inl rfl)]
      rw [List.getElem_set_ne (Ne.symm hkn), List.getElem_set_self]
    · rw [if_neg (by tauto)]
      rw [List.getElem_set_ne (Ne.symm hkn), List.getElem_set_ne (Ne.symm hk0)]
      simp

/-- C7 counterexample: with block size 10, Python 2 floor division makes the
jitter range [-4, 3], so randint can legally return -4 for an interior
boundary; -4 lies outside the claimed closed interval [-10/3, 10/3]. -/
theorem c7_jitter_bounds_counterexample :
    ValidDraw 10 (fun k => if k = 1 then (-4 : ℤ) else 0) ∧
    (offsetList 2 true (fun k => if k = 1 then (-4 : ℤ) else 0)).getD 1 0 = -4 ∧
    ¬(-(10 : ℚ) / 3 ≤
        (((offsetList 2 true (fun k => if k = 1 then (-4 : ℤ) else 0)).getD 1 0 : ℤ) : ℚ)) := by
  have hoff : (offsetList 2 true (fun k => if k = 1 then (-4 : ℤ) else 0)).getD 1 0 = -4 := by
    decide
  refine ⟨?_, hoff, ?_⟩
  · intro k
    show jitterLower 10 ≤ (if k = 1 then (-4 : ℤ) else 0) ∧
        (if k = 1 then (-4 : ℤ) else 0) ≤ jitterUpper 10
    by_cases hk : k = 1
    · rw [if_pos hk]
      exact ⟨by decide, by decide⟩
    · rw [if_neg hk]
      exact ⟨by decide, by decide⟩
  · rw [hoff]
    norm_num

/-- C7 (amended): non-uniform boundary offset lists always have first and
last element 0, and every interior element lies in the inclusive integer
range [jitterLower S, jitterUpper S] = [-⌈S/3⌉, ⌊S/3⌋] actually used by
randint; this range reaches below -S/3 (by less than 1) whenever 3 does not
divide S, as witnessed by 3 * jitterLower S ≥ -S - 2 and
3 * jitterUpper S ≤ S. -/
theorem c7_jitter_bounds_amended (S n : ℕ) (draw : ℕ → ℤ)
    (hdraw : ValidDraw S draw) :
    (offsetList n true draw).getD 0 0 = 0 ∧
    (offsetList n true draw).getD n 0 = 0 ∧
    (∀ k, 0 < k → k < n →
      jitterLower S ≤ (offsetList n true draw).getD k 0 ∧
      (offsetList n true draw).getD k 0 ≤ jitterUpper S) ∧
    -(S : ℤ) - 2 ≤ 3 * jitterLower S ∧ 3 * jitterUpper S ≤ (S : ℤ) := by
  refine ⟨?_, ?_, fun k hk0 hkn => ?_, ?_, ?_⟩
  · rw [offsetList_getD n draw 0 (Nat.zero_le n)]
    simp
  · rw [offsetList_getD n draw n le_rfl]
    simp
  · rw [offsetList_getD n draw k (le_of_lt hkn), if_neg (by omega)]
    exact hdraw k
  · rw [jitterLower_eq]
    omega
  · rw [jitterUpper_eq]
    omega

/-- C7 witness: the amended bounds at block size 10 with the all-zero draw. -/
theorem c7_jitter_bounds_amended_witness :
    ValidDraw 10 (fun _ => 0) ∧
    ((offsetList 2 true (fun _ => (0 : ℤ))).getD 0 0 = 0 ∧
      (offsetList 2 true (fun _ => (0 : ℤ))).getD 2 0 = 0 ∧
      (∀ k, 0 < k → k < 2 →
        jitterLower 10 ≤ (offsetList 2 true (fun _ => (0 : ℤ))).getD k 0 ∧
        (offsetList 2 true (fun _ => (0 : ℤ))).getD k 0 ≤ jitterUpper 10) ∧
      -(10 : ℤ) - 2 ≤ 3 * jitterLower 10 ∧ 3 * jitterUpper 10 ≤ (10 : ℤ)) :=
  ⟨by
      intro k
      show jitterLower 10 ≤ 0 ∧ (0 : ℤ) ≤ jitterUpper 10
      exact ⟨by decide, by decide⟩,
    c7_jitter_bounds_amended 10 2 (fun _ => 0) (by
      intro k
      show jitterLower 10 ≤ 0 ∧ (0 : ℤ) ≤ jitterUpper 10
      exact ⟨by decide, by decide⟩)⟩

/-- C9 counterexample: with block size 1 (jitter range [-1, 0]) on a 2 x 2
destination image, an admissible draw of -1 at the interior column boundary
makes cell 0 have pixel width 0: the empty rectangle reaches histogram
extraction and the per-cell division by the pixel count divides by zero. -/
theorem c9_empty_cell_counterexample :
    destNumCols 2 1 = 2 ∧
    ValidDraw 1 (fun k => if k = 1 then (-1 : ℤ) else 0) ∧
    cellWidth 1
        (offsetList (destNumCols 2 1) true (fun k => if k = 1 then (-1 : ℤ) else 0)) 0
      = 0 := by
  refine ⟨by decide, ?_, by decide⟩
  intro k
  show jitterLower 1 ≤ (if k = 1 then (-1 : ℤ) else 0) ∧
      (if k = 1 then (-1 : ℤ) else 0) ≤ jitterUpper 1
  by_cases hk : k = 1
  · rw [if_pos hk]
    exact ⟨by decide, by decide⟩
  · rw [if_neg hk]
    exact ⟨by decide, by decide⟩

/-- C9 (amended): for every block size S ≥ 2, every admissible jitter draw
and every cell of the grid, the cell's extent along each axis is at least
one pixel, so no empty rectangle reaches histogram extraction and the
per-cell averaging divisions are never by zero; block size S = 1 is the
single exception (see the counterexample). -/
theorem c9_nonempty_cells_amended (S n : ℕ) (hS : 2 ≤ S) (draw : ℕ → ℤ)
    (hdraw : ValidDraw S draw) (col : ℕ) (hcol : col < n) :
    1 ≤ cellWidth S (offsetList n true draw) col := by
  have hb : ∀ k, k ≤ n →
      jitterLower S ≤ (offsetList n true draw).getD k 0 ∧
      (offsetList n true draw).getD k 0 ≤ jitterUpper S := by
    intro k hk
    rw [offsetList_getD n draw k hk]
    by_cases h0 : k = 0 ∨ k = n
    · rw [if_pos h0, jitterLower_eq, jitterUpper_eq]
      constructor <;> omega
    · rw [if_neg h0]
      exact hdraw k
  obtain ⟨hA, hB⟩ := hb col (by omega)
  obtain ⟨hC, hD⟩ := hb (col + 1) (by omega)
  rw [jitterLower_eq] at hA hC
  rw [jitterUpper_eq] at hB hD
  rw [cellWidth]
  omega

/-- C9 witness: block size 2, the all-zero draw, cell 0 of a 2-column grid. -/
theorem c9_nonempty_cells_amended_witness :
    2 ≤ 2 ∧ ValidDraw 2 (fun _ => 0) ∧ 0 < 2 ∧
    1 ≤ cellWidth 2 (offsetList 2 true (fun _ => 0)) 0 :=
  ⟨by decide, by
      intro k
      show jitterLower 2 ≤ 0 ∧ (0 : ℤ) ≤ jitterUpper 2
      exact ⟨by decide, by decide⟩, by decide,
    c9_nonempty_cells_amended 2 2 (by decide) (fun _ => 0)
      (by
        intro k
        show jitterLower 2 ≤ 0 ∧ (0 : ℤ) ≤ jitterUpper 2
        exact ⟨by decide, by decide⟩) 0 (by decide)⟩

lemma rgb_to_hsv_bounds (r g b : ℕ) (hr : r ≤ 255) (hg : g ≤ 255) (hb : b ≤ 255) :
    0 ≤ (rgb_to_hsv r g b).1 ∧ (rgb_to_hsv r g b).1 < 360 ∧
    0 ≤ (rgb_to_hsv r g b).2.1 ∧ (rgb_to_hsv r g b).2.1 ≤ 1 ∧
    0 ≤ (rgb_to_hsv r g b).2.2 ∧ (rgb_to_hsv r g b).2.2 ≤ 255 := by
  simp only [rgb_to_hsv]
  set M := max r (max g b) with hMdef
  set m := min r (min g b) with hmdef
  have hMr : r ≤ M := le_max_left _ _
  have hMg : g ≤ M := le_trans (le_max_left _ _) (le_max_right _ _)
  have hMb : b ≤ M := le_trans (le_max_right _ _) (le_max_right _ _)
  have hmr : m ≤ r := min_le_left _ _
  have hmg : m ≤ g := le_trans (min_le_right _ _) (min_le_left _ _)
  have hmb : m ≤ b := le_trans (min_le_right _ _) (min_le_right _ _)
  have hM255 : M ≤ 255 := max_le hr (max_le hg hb)
  have hmM : m ≤ M := le_trans hmr hMr
  have hcast : ((M - m : ℕ) : ℚ) = (M : ℚ) - (m : ℚ) := Nat.cast_sub hmM
  have hMrq : (r : ℚ) ≤ (M : ℚ) := by exact_mod_cast hMr
  have hMgq : (g : ℚ) ≤ (M : ℚ) := by exact_mod_cast hMg
  have hMbq : (b : ℚ) ≤ (M : ℚ) := by exact_mod_cast hMb
  have hmrq : (m : ℚ) ≤ (r : ℚ) := by exact_mod_cast hmr
  have hmgq : (m : ℚ) ≤ (g : ℚ) := by exact_mod_cast hmg
  have hmbq : (m : ℚ) ≤ (b : ℚ) := by exact_mod_cast hmb
  have hm0q : (0 : ℚ) ≤ (m : ℚ) := Nat.cast_nonneg m
  have hM255q : (M : ℚ) ≤ 255 := by exact_mod_cast hM255
  have hmMq : (m : ℚ) ≤ (M : ℚ) := by exact_mod_cast hmM
  by_cases hM0 : 0 < M
  case neg =>
    rw [if_neg hM0]
    dsimp only
    exact ⟨le_refl 0, by norm_num, le_refl 0, by norm_num, Nat.cast_nonneg M, hM255q⟩
  case pos =>
    rw [if_pos hM0]
    have hM0q : (0 : ℚ) < (M : ℚ) := by exact_mod_cast hM0
    have hs0 : (0 : ℚ) ≤ ((M - m : ℕ) : ℚ) / (M : ℚ) :=
      div_nonneg (Nat.cast_nonneg _) (le_of_lt hM0q)
    have hs1 : ((M - m : ℕ) : ℚ) / (M : ℚ) ≤ 1 := by
      rw [div_le_one hM0q, hcast]
      linarith
    by_cases hmin : m = M
    case pos =>
      rw [if_pos hmin, if_neg (by norm_num : ¬((0 : ℚ) * 60 < 0))]
      dsimp only
      exact ⟨by norm_num, by norm_num, hs0, hs1, Nat.cast_nonneg M, hM255q⟩
    case neg =>
      have hd : (0 : ℚ) < ((M - m : ℕ) : ℚ) := by
        rw [hcast]
        have : m < M := lt_of_le_of_ne hmM hmin
        have : (m : ℚ) < (M : ℚ) := by exact_mod_cast this
        linarith
      rw [if_neg hmin]
      have hq : ∀ x y : ℚ, (m : ℚ) ≤ x → x ≤ (M : ℚ) → (m : ℚ) ≤ y → y ≤ (M : ℚ) →
          -1 ≤ (x - y) / ((M - m : ℕ) : ℚ) ∧ (x - y) / ((M - m : ℕ) : ℚ) ≤ 1 := by
        intro x y hx1 hx2 hy1 hy2
        constructor
        · rw [le_div_iff₀ hd, hcast]
          linarith
        · rw [div_le_one hd, hcast]
          linarith
      by_cases hrm : r = M
      case pos =>
        rw [if_pos hrm]
        obtain ⟨hq2, hq1⟩ := hq (g : ℚ) (b : ℚ) hmgq hMgq hmbq hMbq
        by_cases hw : ((g : ℚ) - (b : ℚ)) / ((M - m : ℕ) : ℚ) * 60 < 0
        · rw [if_pos hw]
          dsimp only
          exact ⟨by linarith, by linarith, hs0, hs1, Nat.cast_nonneg M, hM255q⟩
        · rw [if_neg hw]
          dsimp only
          exact ⟨by linarith, by linarith, hs0, hs1, Nat.cast_nonneg M, hM255q⟩
      case neg =>
        rw [if_neg hrm]
        by_cases hgm : g = M
        case pos =>
          rw [if_pos hgm]
          obtain ⟨hq2, hq1⟩ := hq (b : ℚ) (r : ℚ) hmbq hMbq hmrq hMrq
          by_cases hw : (2 + ((b : ℚ) - (r : ℚ)) / ((M - m : ℕ) : ℚ)) * 60 < 0
          · rw [if_pos hw]
            dsimp only
            exact ⟨by linarith, by linarith, hs0, hs1, Nat.cast_nonneg M, hM255q⟩
          · rw [if_neg hw]
            dsimp only
            exact ⟨by linarith, by linarith, hs0, hs1, Nat.cast_nonneg M, hM255q⟩
        case neg =>
          rw [if_neg hgm]
          obtain ⟨hq2, hq1⟩ := hq (r : ℚ) (g : ℚ) hmrq hMrq hmgq hMgq
          by_cases hw : (4 + ((r : ℚ) - (g : ℚ)) / ((M - m : ℕ) : ℚ)) * 60 < 0
          · rw [if_pos hw]
            dsimp only
            exact ⟨by linarith, by linarith, hs0, hs1, Nat.cast_nonneg M, hM255q⟩
          · rw [if_neg hw]
            dsimp only
            exact ⟨by linarith, by linarith, hs0, hs1, Nat.cast_nonneg M, hM255q⟩

lemma weighted_sum_nonneg_le (colors : List (ℕ × ℕ × ℕ × ℕ)) (f : ℕ × ℕ × ℕ × ℕ → ℚ)
    (B : ℚ) (hf : ∀ it ∈ colors, 0 ≤ f it ∧ f it ≤ B) :
    0 ≤ (colors.map fun it => f it * (it.1 : ℚ)).sum ∧
    (colors.map fun it => f it * (it.1 : ℚ)).sum
      ≤ B * (colors.map fun it => (it.1 : ℚ)).sum := by
  induction colors with
  | nil => simp
  | cons a l ih =>
      obtain ⟨ha0, haB⟩ := hf a (List.mem_cons_self a l)
      obtain ⟨ih0, ihB⟩ := ih fun it hit => hf it (List.mem_cons_of_mem a hit)
      simp only [List.map_cons, List.sum_cons]
      have hBd : B * ((a.1 : ℚ) + (l.map fun it => (it.1 : ℚ)).sum)
          = B * (a.1 : ℚ) + B * (l.map fun it => (it.1 : ℚ)).sum := mul_add B _ _
      constructor
      · have h1 : 0 ≤ f a * (a.1 : ℚ) := mul_nonneg ha0 (Nat.cast_nonneg _)
        linarith
      · have h1 : f a * (a.1 : ℚ) ≤ B * (a.1 : ℚ) :=
          mul_le_mul_of_nonneg_right haB (Nat.cast_nonneg _)
        rw [hBd]
        linarith

lemma weighted_sum_lt (colors : List (ℕ × ℕ × ℕ × ℕ)) (f : ℕ × ℕ × ℕ × ℕ → ℚ)
    (B : ℚ) (hf : ∀ it ∈ colors, 0 ≤ f it ∧ f it < B)
    (hpos : 0 < (colors.map fun it => (it.1 : ℚ)).sum) :
    (colors.map fun it => f it * (it.1 : ℚ)).sum
      < B * (colors.map fun it => (it.1 : ℚ)).sum := by
  induction colors with
  | nil => simp at hpos
  | cons a l ih =>
      obtain ⟨ha0, haB⟩ := hf a (List.mem_cons_self a l)
      have hfl : ∀ it ∈ l, 0 ≤ f it ∧ f it < B :=
        fun it hit => hf it (List.mem_cons_of_mem a hit)
      have hcnt0 : (0 : ℚ) ≤ (l.map fun it => (it.1 : ℚ)).sum := by
        apply List.sum_nonneg
        intro x hx
        obtain ⟨it, _, rfl⟩ := List.mem_map.1 hx
        exact Nat.cast_nonneg _
      simp only [List.map_cons, List.sum_cons] at hpos ⊢
      have hBd : B * ((a.1 : ℚ) + (l.map fun it => (it.1 : ℚ)).sum)
          = B * (a.1 : ℚ) + B * (l.map fun it => (it.1 : ℚ)).sum := mul_add B _ _
      rw [hBd]
      by_cases hc : (0 : ℚ) < (l.map fun it => (it.1 : ℚ)).sum
      · have hlt := ih hfl hc
        have h1 : f a * (a.1 : ℚ) ≤ B * (a.1 : ℚ) :=
          mul_le_mul_of_nonneg_right (le_of_lt haB) (Nat.cast_nonneg _)
        linarith
      · have hc0 : (l.map fun it => (it.1 : ℚ)).sum = 0 := le_antisymm (not_lt.1 hc) hcnt0
        have ha1 : (0 : ℚ) < (a.1 : ℚ) := by
          rw [hc0] at hpos
          simpa using hpos
        have h1 : f a * (a.1 : ℚ) < B * (a.1 : ℚ) := mul_lt_mul_of_pos_right haB ha1
        have h2 := (weighted_sum_nonneg_le l f B
          fun it hit => ⟨(hfl it hit).1, le_of_lt (hfl it hit).2⟩).2
        rw [hc0] at h2
        rw [hc0]
        simp only [mul_zero] at h2 ⊢
        linarith

lemma cast_weighted_sum (colors : List (ℕ × ℕ × ℕ × ℕ)) (f : ℕ × ℕ × ℕ × ℕ → ℕ) :
    (((colors.map fun it => f it * it.1).sum : ℕ) : ℚ)
      = (colors.map fun it => (f it : ℚ) * (it.1 : ℚ)).sum := by
  induction colors with
  | nil => simp
  | cons a l ih => simp only [List.map_cons, List.sum_cons, Nat.cast_add, Nat.cast_mul, ih]

lemma cast_count_sum (colors : List (ℕ × ℕ × ℕ × ℕ)) :
    (((colors.map fun it => it.1).sum : ℕ) : ℚ) = (colors.map fun it => (it.1 : ℚ)).sum := by
  induction colors with
  | nil => simp
  | cons a l ih => simp only [List.map_cons, List.sum_cons, Nat.cast_add, ih]

lemma pyInt_toNat_le (x : ℚ) (mv : ℕ) (h0 : 0 ≤ x) (h1 : x ≤ (mv : ℚ)) :
    (pyInt x).toNat ≤ mv := by
  rw [pyInt_of_nonneg h0]
  have h2 : ⌊x⌋ ≤ (mv : ℤ) := by
    calc ⌊x⌋ ≤ ⌊(mv : ℚ)⌋ := Int.floor_mono h1
    _ = (mv : ℤ) := Int.floor_natCast mv
  omega

lemma pyInt_toNat_le_of_lt_succ (x : ℚ) (mv : ℕ) (h0 : 0 ≤ x) (h1 : x < (mv : ℚ) + 1) :
    (pyInt x).toNat ≤ mv := by
  rw [pyInt_of_nonneg h0]
  have h2 : ⌊x⌋ < (mv : ℤ) + 1 := by
    rw [Int.floor_lt]
    push_cast
    exact h1
  omega

lemma hue_scaled_lt (a : ℚ) (mv : ℕ) (h0 : 0 ≤ a) (h1 : a < 360) (hmv : mv ≤ 359) :
    a / 359 * (mv : ℚ) < (mv : ℚ) + 1 := by
  have hmv' : (mv : ℚ) ≤ 359 := by exact_mod_cast hmv
  have hmv0 : (0 : ℚ) ≤ (mv : ℚ) := Nat.cast_nonneg mv
  rw [div_mul_eq_mul_div, div_lt_iff₀ (by norm_num : (0 : ℚ) < 359)]
  rcases eq_or_lt_of_le hmv0 with h | h
  · rw [← h]
    norm_num
  · nlinarith

/-- C8 (amended): with a complete histogram (counts summing to the cell's
pixel count), positive pixel count, 8-bit colors and maxValue at most 359,
all seven scaled statistics lie in [0, maxValue] (they are naturals, so
nonnegativity is inherent).  The bound for maxValue is needed because the
average hue lies in [0, 360) but is divided by 359: for larger maxValue the
scaled hue can reach maxValue + 1 (see the counterexample). -/
theorem c8_stat_scaling_amended (colors : List (ℕ × ℕ × ℕ × ℕ)) (bs mv : ℕ)
    (hbs : 0 < bs) (hsum : (colors.map fun it => it.1).sum = bs)
    (hrgb : ∀ it ∈ colors, it.2.1 ≤ 255 ∧ it.2.2.1 ≤ 255 ∧ it.2.2.2 ≤ 255)
    (hmv : mv ≤ 359) :
    (buildCellStats colors bs mv).l ≤ mv ∧
    (buildCellStats colors bs mv).h ≤ mv ∧
    (buildCellStats colors bs mv).s ≤ mv ∧
    (buildCellStats colors bs mv).v ≤ mv ∧
    (buildCellStats colors bs mv).r ≤ mv ∧
    (buildCellStats colors bs mv).g ≤ mv ∧
    (buildCellStats colors bs mv).b ≤ mv := by
  have hbsq : (0 : ℚ) < (bs : ℚ) := by exact_mod_cast hbs
  have hmvq : (0 : ℚ) ≤ (mv : ℚ) := Nat.cast_nonneg mv
  have hcnt : (colors.map fun it => (it.1 : ℚ)).sum = (bs : ℚ) := by
    rw [← cast_count_sum, hsum]
  have hhsv : ∀ it ∈ colors,
      0 ≤ (rgb_to_hsv it.2.1 it.2.2.1 it.2.2.2).1 ∧
      (rgb_to_hsv it.2.1 it.2.2.1 it.2.2.2).1 < 360 ∧
      0 ≤ (rgb_to_hsv it.2.1 it.2.2.1 it.2.2.2).2.1 ∧
      (rgb_to_hsv it.2.1 it.2.2.1 it.2.2.2).2.1 ≤ 1 ∧
      0 ≤ (rgb_to_hsv it.2.1 it.2.2.1 it.2.2.2).2.2 ∧
      (rgb_to_hsv it.2.1 it.2.2.1 it.2.2.2).2.2 ≤ 255 :=
    fun it hit => rgb_to_hsv_bounds it.2.1 it.2.2.1 it.2.2.2
      (hrgb it hit).1 (hrgb it hit).2.1 (hrgb it hit).2.2
  -- scaled RGB averages
  have hrA : 0 ≤ (((colors.map fun it => it.2.1 * it.1).sum : ℕ) : ℚ) / (bs : ℚ) ∧
      (((colors.map fun it => it.2.1 * it.1).sum : ℕ) : ℚ) / (bs : ℚ) ≤ 255 := by
    have h := weighted_sum_nonneg_le colors (fun it => ((it.2.1 : ℕ) : ℚ)) 255
      (fun it hit => ⟨Nat.cast_nonneg _, by show ((it.2.1 : ℕ) : ℚ) ≤ 255; exact_mod_cast (hrgb it hit).1⟩)
    rw [hcnt] at h
    rw [cast_weighted_sum colors (fun it => it.2.1)]
    exact ⟨div_nonneg h.1 (le_of_lt hbsq), by rw [div_le_iff₀ hbsq]; exact h.2⟩
  have hgA : 0 ≤ (((colors.map fun it => it.2.2.1 * it.1).sum : ℕ) : ℚ) / (bs : ℚ) ∧
      (((colors.map fun it => it.2.2.1 * it.1).sum : ℕ) : ℚ) / (bs : ℚ) ≤ 255 := by
    have h := weighted_sum_nonneg_le colors (fun it => ((it.2.2.1 : ℕ) : ℚ)) 255
      (fun it hit => ⟨Nat.cast_nonneg _, by show ((it.2.2.1 : ℕ) : ℚ) ≤ 255; exact_mod_cast (hrgb it hit).2.1⟩)
    rw [hcnt] at h
    rw [cast_weighted_sum colors (fun it => it.2.2.1)]
    exact ⟨div_nonneg h.1 (le_of_lt hbsq), by rw [div_le_iff₀ hbsq]; exact h.2⟩
  have hbA : 0 ≤ (((colors.map fun it => it.2.2.2 * it.1).sum : ℕ) : ℚ) / (bs : ℚ) ∧
      (((colors.map fun it => it.2.2.2 * it.1).sum : ℕ) : ℚ) / (bs : ℚ) ≤ 255 := by
    have h := weighted_sum_nonneg_le colors (fun it => ((it.2.2.2 : ℕ) : ℚ)) 255
      (fun it hit => ⟨Nat.cast_nonneg _, by show ((it.2.2.2 : ℕ) : ℚ) ≤ 255; exact_mod_cast (hrgb it hit).2.2⟩)
    rw [hcnt] at h
    rw [cast_weighted_sum colors (fun it => it.2.2.2)]
    exact ⟨div_nonneg h.1 (le_of_lt hbsq), by rw [div_le_iff₀ hbsq]; exact h.2⟩
  -- hue average: nonnegative and strictly below 360
  have hHA : 0 ≤ (colors.map fun it =>
        (rgb_to_hsv it.2.1 it.2.2.1 it.2.2.2).1 * (it.1 : ℚ)).sum / (bs : ℚ) ∧
      (colors.map fun it =>
        (rgb_to_hsv it.2.1 it.2.2.1 it.2.2.2).1 * (it.1 : ℚ)).sum / (bs : ℚ) < 360 := by
    have h0 := (weighted_sum_nonneg_le colors
      (fun it => (rgb_to_hsv it.2.1 it.2.2.1 it.2.2.2).1) 360
      (fun it hit => ⟨(hhsv it hit).1, le_of_lt (hhsv it hit).2.1⟩)).1
    have hlt := weighted_sum_lt colors
      (fun it => (rgb_to_hsv it.2.1 it.2.2.1 it.2.2.2).1) 360
      (fun it hit => ⟨(hhsv it hit).1, (hhsv it hit).2.1⟩)
      (by rw [hcnt]; exact hbsq)
    rw [hcnt] at hlt
    exact ⟨div_nonneg h0 (le_of_lt hbsq), by rw [div_lt_iff₀ hbsq]; exact hlt⟩
  -- saturation average in [0, 1]
  have hSA : 0 ≤ (colors.map fun it =>
        (rgb_to_hsv it.2.1 it.2.2.1 it.2.2.2).2.1 * (it.1 : ℚ)).sum / (bs : ℚ) ∧
      (colors.map fun it =>
        (rgb_to_hsv it.2.1 it.2.2.1 it.2.2.2).2.1 * (it.1 : ℚ)).sum / (bs : ℚ) ≤ 1 := by
    have h := weighted_sum_nonneg_le colors
      (fun it => (rgb_to_hsv it.2.1 it.2.2.1 it.2.2.2).2.1) 1
      (fun it hit => ⟨(hhsv it hit).2.2.1, (hhsv it hit).2.2.2.1⟩)
    rw [hcnt] at h
    refine ⟨div_nonneg h.1 (le_of_lt hbsq), ?_⟩
    rw [div_le_one hbsq]
    have := h.2
    linarith
  -- value average in [0, 255]
  have hVA : 0 ≤ (colors.map fun it =>
        (rgb_to_hsv it.2.1 it.2.2.1 it.2.2.2).2.2 * (it.1 : ℚ)).sum / (bs : ℚ) ∧
      (colors.map fun it =>
        (rgb_to_hsv it.2.1 it.2.2.1 it.2.2.2).2.2 * (it.1 : ℚ)).sum / (bs : ℚ) ≤ 255 := by
    have h := weighted_sum_nonneg_le colors
      (fun it => (rgb_to_hsv it.2.1 it.2.2.1 it.2.2.2).2.2) 255
      (fun it hit => ⟨(hhsv it hit).2.2.2.2.1, (hhsv it hit).2.2.2.2.2⟩)
    rw [hcnt] at h
    exact ⟨div_nonneg h.1 (le_of_lt hbsq), by rw [div_le_iff₀ hbsq]; exact h.2⟩
  simp only [buildCellStats]
  refine ⟨?_, ?_, ?_, ?_, ?_, ?_, ?_⟩
  · -- luminance
    refine pyInt_toNat_le _ mv ?_ ?_
    · have := hrA.1
      have := hgA.1
      have := hbA.1
      positivity
    · have hl255 : (((colors.map fun it => it.2.1 * it.1).sum : ℕ) : ℚ) / (bs : ℚ) * (299 / 1000)
          + (((colors.map fun it => it.2.2.1 * it.1).sum : ℕ) : ℚ) / (bs : ℚ) * (587 / 1000)
          + (((colors.map fun it => it.2.2.2 * it.1).sum : ℕ) : ℚ) / (bs : ℚ) * (114 / 1000)
          ≤ 255 := by
        have h1 := hrA.1
        have h2 := hrA.2
        have h3 := hgA.1
        have h4 := hgA.2
        have h5 := hbA.1
        have h6 := hbA.2
        linarith
      have h1 := hrA.1
      have h3 := hgA.1
      have h5 := hbA.1
      have hone : ((((colors.map fun it => it.2.1 * it.1).sum : ℕ) : ℚ) / (bs : ℚ) * (299 / 1000)
          + (((colors.map fun it => it.2.2.1 * it.1).sum : ℕ) : ℚ) / (bs : ℚ) * (587 / 1000)
          + (((colors.map fun it => it.2.2.2 * it.1).sum : ℕ) : ℚ) / (bs : ℚ) * (114 / 1000)) / 255
          ≤ 1 := by
        rw [div_le_one (by norm_num : (0 : ℚ) < 255)]
        exact hl255
      calc ((((colors.map fun it => it.2.1 * it.1).sum : ℕ) : ℚ) / (bs : ℚ) * (299 / 1000)
          + (((colors.map fun it => it.2.2.1 * it.1).sum : ℕ) : ℚ) / (bs : ℚ) * (587 / 1000)
          + (((colors.map fun it => it.2.2.2 * it.1).sum : ℕ) : ℚ) / (bs : ℚ) * (114 / 1000)) / 255
            * (mv : ℚ)
          ≤ 1 * (mv : ℚ) := by
            apply mul_le_mul_of_nonneg_right hone hmvq
      _ = (mv : ℚ) := one_mul _
  · -- hue
    refine pyInt_toNat_le_of_lt_succ _ mv ?_ ?_
    · have := hHA.1
      positivity
    · exact hue_scaled_lt _ mv hHA.1 hHA.2 hmv
  · -- saturation
    refine pyInt_toNat_le _ mv ?_ ?_
    · have := hSA.1
      positivity
    · calc (colors.map fun it =>
            (rgb_to_hsv it.2.1 it.2.2.1 it.2.2.2).2.1 * (it.1 : ℚ)).sum / (bs : ℚ) * (mv : ℚ)
          ≤ 1 * (mv : ℚ) := mul_le_mul_of_nonneg_right hSA.2 hmvq
      _ = (mv : ℚ) := one_mul _
  · -- value
    refine pyInt_toNat_le _ mv ?_ ?_
    · have := hVA.1
      positivity
    · have hone : (colors.map fun it =>
          (rgb_to_hsv it.2.1 it.2.2.1 it.2.2.2).2.2 * (it.1 : ℚ)).sum / (bs : ℚ) / 255 ≤ 1 := by
        rw [div_le_one (by norm_num : (0 : ℚ) < 255)]
        exact hVA.2
      calc (colors.map fun it =>
            (rgb_to_hsv it.2.1 it.2.2.1 it.2.2.2).2.2 * (it.1 : ℚ)).sum / (bs : ℚ) / 255 * (mv : ℚ)
          ≤ 1 * (mv : ℚ) := mul_le_mul_of_nonneg_right hone hmvq
      _ = (mv : ℚ) := one_mul _
  · -- red
    refine pyInt_toNat_le _ mv ?_ ?_
    · positivity
    · have hone : (((colors.map fun it => it.2.1 * it.1).sum : ℕ) : ℚ) / (bs : ℚ) / 255 ≤ 1 := by
        rw [div_le_one (by norm_num : (0 : ℚ) < 255)]
        exact hrA.2
      calc (((colors.map fun it => it.2.1 * it.1).sum : ℕ) : ℚ) / (bs : ℚ) / 255 * (mv : ℚ)
          ≤ 1 * (mv : ℚ) := mul_le_mul_of_nonneg_right hone hmvq
      _ = (mv : ℚ) := one_mul _
  · -- green
    refine pyInt_toNat_le _ mv ?_ ?_
    · positivity
    · have hone : (((colors.map fun it => it.2.2.1 * it.1).sum : ℕ) : ℚ) / (bs : ℚ) / 255 ≤ 1 := by
        rw [div_le_one (by norm_num : (0 : ℚ) < 255)]
        exact hgA.2
      calc (((colors.map fun it => it.2.2.1 * it.1).sum : ℕ) : ℚ) / (bs : ℚ) / 255 * (mv : ℚ)
          ≤ 1 * (mv : ℚ) := mul_le_mul_of_nonneg_right hone hmvq
      _ = (mv : ℚ) := one_mul _
  · -- blue
    refine pyInt_toNat_le _ mv ?_ ?_
    · positivity
    · have hone : (((colors.map fun it => it.2.2.2 * it.1).sum : ℕ) : ℚ) / (bs : ℚ) / 255 ≤ 1 := by
        rw [div_le_one (by norm_num : (0 : ℚ) < 255)]
        exact hbA.2
      calc (((colors.map fun it => it.2.2.2 * it.1).sum : ℕ) : ℚ) / (bs : ℚ) / 255 * (mv : ℚ)
          ≤ 1 * (mv : ℚ) := mul_le_mul_of_nonneg_right hone hmvq
      _ = (mv : ℚ) := one_mul _

lemma buildCellStats_h_def (colors : List (ℕ × ℕ × ℕ × ℕ)) (bs mv : ℕ) :
    (buildCellStats colors bs mv).h
      = (pyInt ((colors.map fun it =>
          (rgb_to_hsv it.2.1 it.2.2.1 it.2.2.2).1 * (it.1 : ℚ)).sum
            / (bs : ℚ) / 359 * (mv : ℚ))).toNat := rfl

/-- C8 counterexample: a cell consisting of one pixel of color (255, 0, 1)
has average hue 6116/17 = 359.76... (hue lies in [0, 360) but is divided by
359), so with maxValue = 470 the scaled hue is 471, outside [0, maxValue];
the other premises of the claim hold for this histogram. -/
theorem c8_hue_scaling_counterexample :
    (([((1 : ℕ), (255 : ℕ), (0 : ℕ), (1 : ℕ))].map fun it => it.1).sum = 1) ∧
    (∀ it ∈ [((1 : ℕ), (255 : ℕ), (0 : ℕ), (1 : ℕ))],
      it.2.1 ≤ 255 ∧ it.2.2.1 ≤ 255 ∧ it.2.2.2 ≤ 255) ∧
    (buildCellStats [(1, 255, 0, 1)] 1 470).h = 471 ∧
    ¬((buildCellStats [(1, 255, 0, 1)] 1 470).h ≤ 470) := by
  have h471 : (buildCellStats [(1, 255, 0, 1)] 1 470).h = 471 := by
    rw [buildCellStats_h_def]
    have hh : (rgb_to_hsv 255 0 1).1 = 6116 / 17 := by norm_num [rgb_to_hsv]
    simp only [List.map_cons, List.map_nil, List.sum_cons, List.sum_nil]
    rw [hh, pyInt, if_neg (by norm_num)]
    have hstep : (6116 / 17 * ((1 : ℕ) : ℚ) + 0) / ((1 : ℕ) : ℚ) / 359 * ((470 : ℕ) : ℚ)
        = 2874520 / 6103 := by
      push_cast
      norm_num
    rw [hstep]
    have hfl : ⌊(2874520 / 6103 : ℚ)⌋ = 471 := by
      rw [Int.floor_eq_iff]
      constructor <;> norm_num
    rw [hfl]
    rfl
  exact ⟨by decide, by decide, h471, by omega⟩

/-- C8 witness: the amended bounds at the one-pixel histogram of color
(255, 0, 1) with maxValue = 359. -/
theorem c8_stat_scaling_amended_witness :
    0 < 1 ∧
    (([((1 : ℕ), (255 : ℕ), (0 : ℕ), (1 : ℕ))].map fun it => it.1).sum = 1) ∧
    (∀ it ∈ [((1 : ℕ), (255 : ℕ), (0 : ℕ), (1 : ℕ))],
      it.2.1 ≤ 255 ∧ it.2.2.1 ≤ 255 ∧ it.2.2.2 ≤ 255) ∧
    (359 : ℕ) ≤ 359 ∧
    ((buildCellStats [(1, 255, 0, 1)] 1 359).l ≤ 359 ∧
      (buildCellStats [(1, 255, 0, 1)] 1 359).h ≤ 359 ∧
      (buildCellStats [(1, 255, 0, 1)] 1 359).s ≤ 359 ∧
      (buildCellStats [(1, 255, 0, 1)] 1 359).v ≤ 359 ∧
      (buildCellStats [(1, 255, 0, 1)] 1 359).r ≤ 359 ∧
      (buildCellStats [(1, 255, 0, 1)] 1 359).g ≤ 359 ∧
      (buildCellStats [(1, 255, 0, 1)] 1 359).b ≤ 359) :=
  ⟨by decide, by decide, by decide, by decide,
    c8_stat_scaling_amended [(1, 255, 0, 1)] 1 359
      (by decide) (by decide) (by decide) (by decide)⟩

end Rebuilder
